import Mathlib

/-!
Verification development for the kalshi-bot trading pipeline.

The Python sources are shallowly embedded here: dollar prices become
rationals, Python dict rows become structures, the persistence layer and
exchange client become explicit function parameters, and exception paths
become `Option`. Each embedded definition names the Python function it
translates.
-/

namespace KalshiBot

/-- Whitespace characters recognised by Python's str.strip() and float(). -/
def isPySpace (c : Char) : Bool :=
  c = ' ' || c = '\t' || c = '\n' || c = '\r' || c = Char.ofNat 11 || c = Char.ofNat 12

/-- Strip leading and trailing whitespace from a character list (str.strip()). -/
def stripChars (l : List Char) : List Char :=
  ((l.dropWhile isPySpace).reverse.dropWhile isPySpace).reverse

/-- Python str.strip(). -/
def pyStrip (s : String) : String := ⟨stripChars s.data⟩

/-- Python str.lower() on ASCII data. -/
def pyLower (s : String) : String := ⟨s.data.map Char.toLower⟩

/-- Python str.upper() on ASCII data. -/
def pyUpper (s : String) : String := ⟨s.data.map Char.toUpper⟩

/-- Value of a digit string, most significant digit first. -/
def digitsVal (l : List Char) : ℚ :=
  l.foldl (fun a c => a * 10 + ((c.toNat - 48 : ℕ) : ℚ)) 0

/-- Unsigned decimal literal: digits, optionally with a fractional part. -/
def parseUnsigned? (l : List Char) : Option ℚ :=
  let ip := l.takeWhile Char.isDigit
  match l.dropWhile Char.isDigit with
  | [] => if ip.isEmpty then none else some (digitsVal ip)
  | '.' :: frac =>
      let fd := frac.takeWhile Char.isDigit
      if (frac.dropWhile Char.isDigit).isEmpty then
        if ip.isEmpty && fd.isEmpty then none
        else some (digitsVal ip + digitsVal fd / (10 : ℚ) ^ fd.length)
      else none
  | _ => none

/-- Python float(s) on plain signed decimal literals (the forms the bot's
data can contain); other strings fail, modelling the ValueError branch. -/
def parseFloat? (s : String) : Option ℚ :=
  match stripChars s.data with
  | '-' :: t => (parseUnsigned? t).map (fun q => -q)
  | '+' :: t => parseUnsigned? t
  | l => parseUnsigned? l

/-- A Python value sitting in a market's price field: a number, a string,
or the None object. -/
inductive PyVal where
  | num (q : ℚ)
  | str (s : String)
  | pyNone
deriving DecidableEq

/-- Python float(v): numbers pass through, strings are parsed (ValueError
on failure), None raises TypeError; both exceptions appear as `none`. -/
def pyFloat? : PyVal → Option ℚ
  | .num q => some q
  | .str s => parseFloat? s
  | .pyNone => none

/-- A raw market record as consumed by market_formatter.py.  A `none` ask
field models a missing dict key; `some v` holds the Python value found. -/
structure Market where
  ticker : String
  volume : Int
  yesAskDollars : Option PyVal
  noAskDollars : Option PyVal
  settlementSources : List String
deriving DecidableEq

/-- A series record (ticker plus settlement sources). -/
structure Series where
  ticker : String
  settlementSources : List String
deriving DecidableEq

/-- A persisted bet row (the fields that drive control flow). -/
structure Bet where
  ticker : String
  side : String
  price : ℚ
  count : Int
  status : String
deriving DecidableEq

/-- A parsed BET decision as consumed by bet_executor.execute_bet. -/
structure Decision where
  ticker : String
  side : String
  price : ℚ
deriving DecidableEq

/-- CULTURE_TICKER_PREFIXES from market_formatter.py. -/
def cultureTickerAllowList : List String :=
  ["KXRT", "KXSPOTIFY", "KXNETFLIX", "KXMOVI", "KXBILLBOARD",
   "KXRANKLISTSONG", "KXSONG", "KXALBUM", "KXTV"]

/-- MIN_VOLUME from market_formatter.py. -/
def MIN_VOLUME : Int := 50

/-- MIN_YES_PRICE from market_formatter.py. -/
def MIN_YES_PRICE : ℚ := 15 / 100

/-- MAX_YES_PRICE from market_formatter.py. -/
def MAX_YES_PRICE : ℚ := 85 / 100

/-- MAX_SPREAD from market_formatter.py. -/
def MAX_SPREAD : ℚ := 108 / 100

/-- MAX_BETS_PER_TICKER from market_formatter.py. -/
def MAX_BETS_PER_TICKER : Nat := 2

/-- MAX_EXPOSURE_PER_SERIES from market_formatter.py. -/
def MAX_EXPOSURE_PER_SERIES : Nat := 4

/-- MAX_MARKETS_FOR_LLM from market_formatter.py. -/
def MAX_MARKETS_FOR_LLM : Nat := 15

/-- The allow-list check `any(ticker.startswith(p) for p in CULTURE_TICKER_PREFIXES)`. -/
def cultureTickerOk (t : String) : Bool :=
  cultureTickerAllowList.any (fun p => p.data.isPrefixOf t.data)

/-- Series key of a ticker, ticker.split("-")[0]: the part before the first dash. -/
def seriesOf (t : String) : String := ⟨t.data.takeWhile (fun c => c ≠ '-')⟩

/-- The two float() conversions at market_formatter.py lines 123-124, with
the dict .get defaults of 0; `none` models the ValueError/TypeError branch. -/
def marketAsks (m : Market) : Option (ℚ × ℚ) :=
  match pyFloat? (m.yesAskDollars.getD (.num 0)), pyFloat? (m.noAskDollars.getD (.num 0)) with
  | some y, some n => some (y, n)
  | _, _ => none

/-- Per-market keep test of filter_culture_markets (market_formatter.py
lines 107-138), with the volume floor and spread ceiling as parameters so
the configured-constant variants of the spec can be stated. -/
def cultureKeep (minVol : Int) (maxSpread : ℚ) (m : Market) : Bool :=
  if cultureTickerOk m.ticker then
    if m.volume ≤ minVol then false
    else
      match marketAsks m with
      | none => false
      | some (y, n) =>
        if MIN_YES_PRICE ≤ y ∧ y ≤ MAX_YES_PRICE then
          if maxSpread < y + n then false else true
        else false
  else false

/-- filter_culture_markets from market_formatter.py, at the module's
constants (the debug counters only feed log lines and are omitted). -/
def filter_culture_markets (markets : List Market) : List Market :=
  markets.filter (cultureKeep MIN_VOLUME MAX_SPREAD)

/-- Modelled from the spec: get_bet_count_for_ticker is imported from the
persistence layer (bet_tracker) but has no definition in the source tree.
Spec section 2 and section 6 describe the Exposure Ledger as returning,
given a ticker, "the count of previously recorded bets against it"
(countByTicker), so it counts all stored bet rows with that ticker. -/
def get_bet_count_for_ticker (ledger : List Bet) (t : String) : Nat :=
  (ledger.filter (fun b => b.ticker == t)).length

/-- Modelled from the spec: get_bet_count_for_series_prefix is likewise
absent from the source tree.  Spec section 6 (countBySeriesPrefix) counts
the stored bet rows whose ticker belongs to the given series. -/
def get_bet_count_for_series (ledger : List Bet) (p : String) : Nat :=
  (ledger.filter (fun b => seriesOf b.ticker == p)).length

/-- filter_by_position_limits from market_formatter.py lines 149-173, with
the two ledger count queries passed in as functions. -/
def filter_by_position_limits (countT countS : String → Nat)
    (markets : List Market) : List Market :=
  markets.filter (fun m =>
    decide (countT m.ticker < MAX_BETS_PER_TICKER) &&
    decide (countS (seriesOf m.ticker) < MAX_EXPOSURE_PER_SERIES))

/-- The settlement-source enrichment loop at the end of
fetch_filtered_markets (market_formatter.py lines 319-333). -/
def enrichMarket (allSeries : List Series) (getSeries : String → Option Series)
    (m : Market) : Market :=
  if '-' ∈ m.ticker.data then
    match allSeries.find? (fun s => s.ticker == seriesOf m.ticker) with
    | some s => { m with settlementSources := s.settlementSources }
    | none =>
      match getSeries (seriesOf m.ticker) with
      | some s => { m with settlementSources := s.settlementSources }
      | none => m
  else m

/-- fetch_filtered_markets from market_formatter.py lines 253-335.  The
exchange client and the two ledger counts are parameters; `limit` is the
function's `limit` argument (50 at the default call). -/
def fetch_filtered_markets (allSeries : List Series)
    (getAllMarkets : String → List Market) (getSeries : String → Option Series)
    (countT countS : String → Nat) (limit : Nat) : List Market :=
  if allSeries.isEmpty then []
  else
    let targets := (allSeries.map Series.ticker).filter cultureTickerOk
    let allMarkets := targets.foldl (fun acc t => acc ++ getAllMarkets t) []
    let filteredMarkets := filter_culture_markets allMarkets
    let topMarkets := filteredMarkets.take limit
    let availableMarkets := filter_by_position_limits countT countS topMarkets
    let cappedMarkets :=
      if MAX_MARKETS_FOR_LLM < availableMarkets.length then
        availableMarkets.take MAX_MARKETS_FOR_LLM
      else availableMarkets
    cappedMarkets.map (enrichMarket allSeries getSeries)

/-- Outcome of one execute_bet call, naming which early return fired or
with how many contracts the order submission is reached. -/
inductive ExecResult where
  | noDecision
  | blockedExposure
  | invalidPrice
  | priceTooHigh
  | orderAttempt (count : Int)
deriving DecidableEq

/-- Control flow of bet_executor.execute_bet given the ledger count for the
decision's ticker: the exposure recheck (cap hard-coded to 2), the
price ≤ 0 test, the floor(4.00 / price) sizing and its count < 1 test. -/
def executeBetResult (countT : String → Nat) (d : Option Decision) : ExecResult :=
  match d with
  | none => .noDecision
  | some dec =>
    if 2 ≤ countT dec.ticker then .blockedExposure
    else if dec.price ≤ 0 then .invalidPrice
    else if Int.floor ((4 : ℚ) / dec.price) < 1 then .priceTooHigh
    else .orderAttempt (Int.floor ((4 : ℚ) / dec.price))

/-- bet_executor.execute_bet as a transformer of the stored bet ledger.
`countT` is the ledger count query, `orderOk` the truthiness of the
client.place_order response, `logOk` whether the Supabase insert in
log_bet_to_supabase succeeds (bet_tracker.py lines 9-49), and `dryRun`
the dry_run flag, which selects the stored status. -/
def executeBet (countT : List Bet → String → Nat) (orderOk logOk dryRun : Bool)
    (d : Option Decision) (ledger : List Bet) : List Bet :=
  match d with
  | none => ledger
  | some dec =>
    if 2 ≤ countT ledger dec.ticker then ledger
    else if dec.price ≤ 0 then ledger
    else if Int.floor ((4 : ℚ) / dec.price) < 1 then ledger
    else if orderOk && logOk then
      ledger ++ [{ ticker := dec.ticker, side := dec.side, price := dec.price,
                   count := Int.floor ((4 : ℚ) / dec.price),
                   status := if dryRun then "dry_run" else "open" }]
    else ledger

/-- Number of stored bet rows for a ticker excluding dry_run rows: the
quantity bounded by the exposure invariant of spec section 8. -/
def recordedBetCount (ledger : List Bet) (t : String) : Nat :=
  (ledger.filter (fun b => b.ticker == t && b.status != "dry_run")).length

/-- Market state returned by client.get_market for the reconciler. -/
structure MarketInfo where
  status : String
  result : String
deriving DecidableEq

/-- The result normalisation str(result).lower().strip() of
bet_tracker.py line 110. -/
def resultClean (r : String) : String := pyStrip (pyLower r)

/-- The per-bet status decision table of check_and_update_bet_statuses
(bet_tracker.py lines 103-123); `none` means no transition. -/
def newBetStatus (marketStatus result side : String) : Option String :=
  if marketStatus = "closed" ∨ marketStatus = "settled" ∨ marketStatus = "finalized" then
    let rc := resultClean result
    if rc = "yes" then some (if side = "YES" then "won" else "lost")
    else if rc = "no" then some (if side = "NO" then "won" else "lost")
    else if rc = "void" ∨ rc = "canceled" ∨ rc = "cancelled" ∨ rc = "refunded" then
      some "void"
    else if rc = "" ∧ marketStatus = "finalized" then some "settled"
    else none
  else none

/-- Action of one reconciler sweep on one stored bet row: rows whose status
is not exactly "open" are outside the sweep's query and stay untouched;
otherwise the market is fetched (a `none` market is the fetch-failure skip)
and the decision table applied to the uppercased side. -/
def sweepBet (getMarket : String → Option MarketInfo) (b : Bet) : Bet :=
  if b.status = "open" then
    match getMarket b.ticker with
    | none => b
    | some m =>
      match newBetStatus m.status m.result (pyUpper b.side) with
      | some s => { b with status := s }
      | none => b
  else b

/-- The tickers the sweep queries against the market source: exactly the
tickers of the rows returned by the status == "open" selection
(bet_tracker.py lines 72-91). -/
def sweepQueries (bets : List Bet) : List String :=
  (bets.filter (fun b => b.status == "open")).map Bet.ticker

/-- One full reconciler sweep over the stored bets
(check_and_update_bet_statuses, bet_tracker.py lines 52-138). -/
def sweep (getMarket : String → Option MarketInfo) (bets : List Bet) : List Bet :=
  bets.map (sweepBet getMarket)

/-- The backtick character. -/
def btick : Char := Char.ofNat 96

/-- The opening curly bracket character. -/
def lbrace : Char := Char.ofNat 123

/-- The closing curly bracket character. -/
def rbrace : Char := Char.ofNat 125

/-- The seven characters opening a JSON-tagged fenced block. -/
def jsonFencePat : List Char := [btick, btick, btick, 'j', 's', 'o', 'n']

/-- Three backticks, the fence delimiter. -/
def fencePat : List Char := [btick, btick, btick]

/-- Index of the first occurrence of `pat` in `l`, if any. -/
def findSub? (pat : List Char) : List Char → Option Nat
  | [] => if pat.isPrefixOf ([] : List Char) then some 0 else none
  | c :: cs =>
    if pat.isPrefixOf (c :: cs) then some 0
    else (findSub? pat cs).map (· + 1)

/-- Extraction method 1 of parse_llm_decision (llm_service.py line 133):
the DOTALL search for a JSON-tagged fence.  At the leftmost viable start
the greedy whitespace run after the tag is consumed and the non-greedy
capture runs to the next fence delimiter. -/
def extractJsonFence : List Char → Option (List Char)
  | [] => none
  | c :: cs =>
    if jsonFencePat.isPrefixOf (c :: cs) then
      let w := ((c :: cs).drop 7).dropWhile isPySpace
      match findSub? fencePat w with
      | some j => some (w.take j)
      | none => extractJsonFence cs
    else extractJsonFence cs

/-- Whether `l` is a whitespace run followed by a fence delimiter: the
closing part of extraction method 2's pattern. -/
def fenceCloseAt (l : List Char) : Bool :=
  fencePat.isPrefixOf (l.dropWhile isPySpace)

/-- Largest index holding the closing bracket of method 2's greedy capture:
the last position with the closing curly bracket followed by whitespace and
a fence delimiter. -/
def lastCloseIdx (l : List Char) : Option Nat :=
  (List.range l.length).foldl
    (fun acc j => if l.get? j = some rbrace ∧ fenceCloseAt (l.drop (j + 1)) then some j else acc)
    none

/-- Extraction method 2 of parse_llm_decision (llm_service.py line 139):
the DOTALL search for a generic fence whose body starts with an opening
curly bracket, the body captured greedily up to a closing curly bracket
that is followed by whitespace and the closing fence. -/
def extractObjFence : List Char → Option (List Char)
  | [] => none
  | c :: cs =>
    if fencePat.isPrefixOf (c :: cs) then
      let w := ((c :: cs).drop 3).dropWhile isPySpace
      if w.head? = some lbrace then
        match lastCloseIdx w with
        | some j => some (w.take (j + 1))
        | none => extractObjFence cs
      else extractObjFence cs
    else extractObjFence cs

/-- Index of the last occurrence of character `c` in `l` (str.rfind). -/
def rfindIdx? (c : Char) (l : List Char) : Option Nat :=
  (findSub? [c] l.reverse).map (fun k => l.length - 1 - k)

/-- Extraction method 3 of parse_llm_decision (llm_service.py lines
143-147): slice from the first opening to the last closing curly bracket
when both exist in that order, else leave the text unchanged. -/
def extractBraces (l : List Char) : List Char :=
  match findSub? [lbrace] l, rfindIdx? rbrace l with
  | some i, some j => if i < j then (l.drop i).take (j + 1 - i) else l
  | _, _ => l

/-- The ordered extraction attempts of parse_llm_decision. -/
def extractRegion (l : List Char) : List Char :=
  match extractJsonFence l with
  | some r => r
  | none =>
    match extractObjFence l with
    | some r => r
    | none => extractBraces l

/-- The trailing-comma repair of llm_service.py line 154: on text ending
with a comma, whitespace and a closing curly bracket, delete that comma. -/
def stripTrailingComma (l : List Char) : List Char :=
  match l.reverse with
  | c :: rest =>
    if c = rbrace then
      match rest.dropWhile isPySpace with
      | ',' :: rest2 => ((c :: rest.takeWhile isPySpace) ++ rest2).reverse
      | _ => l
    else l
  | [] => l

/-- The full text-cleaning pipeline of parse_llm_decision before
json.loads: strip, extract a region by methods 1-3, strip again, repair a
trailing comma. -/
def extractText (s : String) : String :=
  ⟨stripTrailingComma (stripChars (extractRegion (stripChars s.data)))⟩

/-- A parsed JSON value as produced by json.loads. -/
inductive Jv where
  | null
  | bool (b : Bool)
  | num (q : ℚ)
  | str (s : String)
  | arr (elems : List Jv)
  | obj (fields : List (String × Jv))

/-- Python dict .get on a parsed object's fields. -/
def objGet (fields : List (String × Jv)) (k : String) : Option Jv :=
  (fields.find? (fun kv => kv.1 == k)).map Prod.snd

/-- Left-to-right removal of all double-asterisk runs: s.replace of two
stars by the empty string. -/
def replStars : List Char → List Char
  | '*' :: '*' :: rest => replStars rest
  | c :: rest => c :: replStars rest
  | [] => []

/-- The clean_str helper of parse_llm_decision: strips bold-markdown
markers from string values, leaves every other value unchanged. -/
def cleanJv : Jv → Jv
  | .str s => .str ⟨replStars s.data⟩
  | v => v

/-- clean_str mapped over an optional field value. -/
def cleanJv? (v : Option Jv) : Option Jv := v.map cleanJv

/-- Python float() applied to a parsed JSON value: numbers pass through,
booleans coerce, numeric strings parse; None, lists and objects raise
(TypeError), surfacing as `none`. -/
def jvFloat? : Jv → Option ℚ
  | .num q => some q
  | .bool b => some (if b then 1 else 0)
  | .str s => parseFloat? s
  | _ => none

/-- The structured decision parse_llm_decision returns. -/
inductive ParsedDecision where
  | pass (reasoning : Option Jv)
  | bet (ticker side : Option Jv) (price : ℚ) (reasoning confidence : Option Jv)

/-- Python equality of a parsed value with the string PASS. -/
def isPassVal : Jv → Bool
  | .str s => s == "PASS"
  | _ => false

/-- llm_service.parse_llm_decision (lines 121-187).  `loads` stands for
json.loads, `none` for its JSONDecodeError.  The blanket exception handler
makes every failure surface as `none`: the falsy-input early return, a
loads failure, a non-object loads result (the .get AttributeError), and a
failing float() on the price field (ValueError/TypeError). -/
def parse_llm_decision (loads : String → Option Jv) (llmOutput : String) :
    Option ParsedDecision :=
  if llmOutput = "" then none
  else
    match loads (extractText llmOutput) with
    | none => none
    | some (.obj fields) =>
      let dt := cleanJv ((objGet fields "decision").getD (.str "BET"))
      if isPassVal dt then some (.pass (cleanJv? (objGet fields "reasoning")))
      else
        match jvFloat? ((objGet fields "price").getD (.num 0)) with
        | none => none
        | some p =>
          some (.bet (cleanJv? (objGet fields "ticker")) (cleanJv? (objGet fields "side"))
                p (cleanJv? (objGet fields "reasoning")) (cleanJv? (objGet fields "confidence")))
    | some _ => none

/-- Example market with the spread-gate ask prices 0.55 and 0.52. -/
def mSpreadEx : Market := ⟨"KXRT-1", 100, some (.num (55 / 100)), some (.num (52 / 100)), []⟩

/-- Example market whose volume sits exactly on the MIN_VOLUME threshold. -/
def mVolFloorEx : Market := ⟨"KXRT-1", 50, some (.num (1 / 2)), some (.num (1 / 2)), []⟩

/-- Example market just above the MIN_VOLUME threshold. -/
def mVolAboveEx : Market := ⟨"KXRT-1", 51, some (.num (1 / 2)), some (.num (1 / 2)), []⟩

/-- Example market with a well-formed yes ask and no no-ask field at all. -/
def mMissingNoAskEx : Market := ⟨"KXRT-1", 100, some (.num (1 / 2)), none, []⟩

/-- Example market whose yes-ask field holds a non-numeric string. -/
def mBadYesAskEx : Market := ⟨"KXRT-1", 100, some (.str "N/A"), some (.num (1 / 2)), []⟩

/-- A fully valid KXRT market with the given ticker. -/
def kxrtMarket (t : String) : Market := ⟨t, 100, some (.num (1 / 2)), some (.num (1 / 2)), []⟩

/-- Four equally valid markets of the one KXRT series. -/
def fourKxrtMarkets : List Market :=
  [kxrtMarket "KXRT-1", kxrtMarket "KXRT-2", kxrtMarket "KXRT-3", kxrtMarket "KXRT-4"]

/-- A series universe holding just the KXRT series. -/
def kxrtSeriesList : List Series := [⟨"KXRT", ["Rotten Tomatoes"]⟩]

/-- A ledger holding four open bets on one KXRT-series ticker. -/
def kxrtLedgerEx : List Bet :=
  [⟨"KXRT-A", "YES", 1 / 2, 8, "open"⟩, ⟨"KXRT-A", "NO", 1 / 2, 8, "open"⟩,
   ⟨"KXRT-A", "YES", 1 / 2, 8, "open"⟩, ⟨"KXRT-A", "NO", 1 / 2, 8, "open"⟩]

/-- A decision on a fresh ticker of that same series. -/
def decKxrtEx : Decision := ⟨"KXRT-B", "YES", 30 / 100⟩

/-- An open bet fixture. -/
def betOpenEx : Bet := ⟨"KXRT-A", "yes", 1 / 2, 8, "open"⟩

/-- A dry_run bet fixture. -/
def betDryEx : Bet := ⟨"KXRT-A", "YES", 1 / 2, 8, "dry_run"⟩

/-- A settled (won) bet fixture. -/
def betWonEx : Bet := ⟨"KXRT-A", "YES", 1 / 2, 8, "won"⟩

section Theorems

/-- C2: with the fixed $4.00 stake, execute_bet aborts with no order when
price ≤ 0; otherwise the contract count is floor(4 / price) and the call
aborts with no order when that count is below 1; concretely price 0.30
reaches order placement with 13 contracts and price 4.01 aborts. -/
theorem sizing_floor_correct (countT : String → Nat) (dec : Decision)
    (hexp : countT dec.ticker < 2) :
    (dec.price ≤ 0 → executeBetResult countT (some dec) = ExecResult.invalidPrice) ∧
    (0 < dec.price → Int.floor ((4 : ℚ) / dec.price) < 1 →
        executeBetResult countT (some dec) = ExecResult.priceTooHigh) ∧
    (0 < dec.price → 1 ≤ Int.floor ((4 : ℚ) / dec.price) →
        executeBetResult countT (some dec)
          = ExecResult.orderAttempt (Int.floor ((4 : ℚ) / dec.price))) ∧
    executeBetResult (fun _ => 0) (some ⟨"KXRT-1", "YES", 30 / 100⟩)
      = ExecResult.orderAttempt 13 ∧
    executeBetResult (fun _ => 0) (some ⟨"KXRT-1", "YES", 401 / 100⟩)
      = ExecResult.priceTooHigh := by
  have hc : ¬ 2 ≤ countT dec.ticker := Nat.not_le.mpr hexp
  refine ⟨fun hp => ?_, fun hp hf => ?_, fun hp hf => ?_, ?_, ?_⟩
  · simp [executeBetResult, hc, hp]
  · simp [executeBetResult, hc, not_le.mpr hp, hf]
  · simp [executeBetResult, hc, not_le.mpr hp, not_lt.mpr hf]
  · have h13 : Int.floor ((4 : ℚ) / (30 / 100)) = 13 := by norm_num
    norm_num [executeBetResult, h13]
  · have h0 : Int.floor ((4 : ℚ) / (401 / 100)) = 0 := by norm_num
    norm_num [executeBetResult, h0]

/-- Witness for sizing_floor_correct at a concrete zero-count ledger and
the price 0.30 of the claim. -/
theorem sizing_floor_correct_witness :
    (0 : Nat) < 2 ∧ (0 : ℚ) < 30 / 100 ∧
    executeBetResult (fun _ => 0) (some ⟨"KXRT-1", "YES", 30 / 100⟩)
      = ExecResult.orderAttempt (Int.floor ((4 : ℚ) / (30 / 100))) :=
  ⟨by decide, by norm_num,
   (sizing_floor_correct (fun _ => 0) ⟨"KXRT-1", "YES", 30 / 100⟩ (by decide)).2.2.1
     (by norm_num) (by norm_num)⟩

theorem recordedBetCount_append (L : List Bet) (b : Bet) (t : String) :
    recordedBetCount (L ++ [b]) t
      = recordedBetCount L t
        + (if b.ticker == t && b.status != "dry_run" then 1 else 0) := by
  by_cases h : (b.ticker == t && b.status != "dry_run") = true <;>
    simp [recordedBetCount, List.filter_append, h]

theorem recordedBetCount_le_ticker_count (L : List Bet) (t : String) :
    recordedBetCount L t ≤ get_bet_count_for_ticker L t := by
  induction L with
  | nil => simp [recordedBetCount, get_bet_count_for_ticker]
  | cons b L ih =>
    simp only [recordedBetCount, get_bet_count_for_ticker, List.filter_cons] at *
    by_cases h1 : (b.ticker == t) = true
    · by_cases h2 : (b.status != "dry_run") = true <;> simp [h1, h2] <;> omega
    · simp [h1]; exact ih

theorem recordedBetCount_append_le (L : List Bet) (b : Bet) (t : String) :
    recordedBetCount (L ++ [b]) t ≤ recordedBetCount L t + 1 := by
  rw [recordedBetCount_append]
  split <;> omega

theorem recordedBetCount_append_dry (L : List Bet) (b : Bet) (t : String)
    (hb : b.status = "dry_run") :
    recordedBetCount (L ++ [b]) t = recordedBetCount L t := by
  rw [recordedBetCount_append, hb]
  simp

theorem recordedBetCount_append_other (L : List Bet) (b : Bet) (t : String)
    (hb : b.ticker ≠ t) :
    recordedBetCount (L ++ [b]) t = recordedBetCount L t := by
  rw [recordedBetCount_append]
  simp [hb]

theorem executeBet_preserves_cap (countT : List Bet → String → Nat)
    (hcount : ∀ L t, recordedBetCount L t ≤ countT L t)
    (ok lg dr : Bool) (d : Option Decision) (L : List Bet)
    (h : ∀ t, recordedBetCount L t ≤ 2) :
    ∀ t, recordedBetCount (executeBet countT ok lg dr d L) t ≤ 2 := by
  intro t
  match d with
  | none => exact h t
  | some dec =>
    simp only [executeBet]
    split
    · exact h t
    split
    · exact h t
    split
    · exact h t
    split
    case isTrue hexp hp hf hok =>
      by_cases hdr : dr = true
      · rw [recordedBetCount_append_dry]
        · exact h t
        · simp [hdr]
      · by_cases ht : dec.ticker = t
        · have hb := hcount L dec.ticker
          have hle : recordedBetCount L t ≤ 1 := by rw [← ht]; omega
          have := recordedBetCount_append_le L
            { ticker := dec.ticker, side := dec.side, price := dec.price,
              count := Int.floor ((4 : ℚ) / dec.price),
              status := if dr then "dry_run" else "open" } t
          omega
        · rw [recordedBetCount_append_other]
          · exact h t
          · exact ht
    · exact h t

theorem executeBet_foldl_cap (countT : List Bet → String → Nat)
    (hcount : ∀ L t, recordedBetCount L t ≤ countT L t) :
    ∀ (runs : List (Bool × Bool × Bool × Option Decision)) (L0 : List Bet),
      (∀ t, recordedBetCount L0 t ≤ 2) →
      ∀ t, recordedBetCount
          (runs.foldl (fun L r => executeBet countT r.1 r.2.1 r.2.2.1 r.2.2.2 L) L0) t ≤ 2 := by
  intro runs
  induction runs with
  | nil => intro L0 h0 t; exact h0 t
  | cons r rs ih =>
    intro L0 h0 t
    exact ih _ (executeBet_preserves_cap countT hcount r.1 r.2.1 r.2.2.1 r.2.2.2 L0 h0) t

/-- C1: execute_bet checks the ledger count for the decision's ticker
first; at a count of 2 or more it returns with no order and no record, so
an invocation never grows a ticker's non-dry_run record count beyond the
cap of 2, over any sequence of invocations starting within the cap and any
over-approximating ledger counting function. -/
theorem exposure_cap_invariant
    (countT : List Bet → String → Nat)
    (hcount : ∀ L t, recordedBetCount L t ≤ countT L t)
    (runs : List (Bool × Bool × Bool × Option Decision))
    (L0 : List Bet) (h0 : ∀ t, recordedBetCount L0 t ≤ 2) :
    (∀ (L : List Bet) (dec : Decision) (ok lg dr : Bool),
        2 ≤ countT L dec.ticker →
        executeBetResult (countT L) (some dec) = ExecResult.blockedExposure ∧
        executeBet countT ok lg dr (some dec) L = L) ∧
    (∀ t, recordedBetCount
        (runs.foldl (fun L r => executeBet countT r.1 r.2.1 r.2.2.1 r.2.2.2 L) L0) t ≤ 2) := by
  refine ⟨fun L dec ok lg dr hcap => ⟨?_, ?_⟩, executeBet_foldl_cap countT hcount runs L0 h0⟩
  · simp [executeBetResult, hcap]
  · simp [executeBet, hcap]

/-- Witness for exposure_cap_invariant: three consecutive real bets on the
same ticker starting from an empty ledger, counted by the spec-modelled
ledger query. -/
theorem exposure_cap_invariant_witness :
    (∀ L t, recordedBetCount L t ≤ get_bet_count_for_ticker L t) ∧
    (∀ t, recordedBetCount ([] : List Bet) t ≤ 2) ∧
    (∀ t, recordedBetCount
        ([(true, true, false, some decKxrtEx), (true, true, false, some decKxrtEx),
          (true, true, false, some decKxrtEx)].foldl
          (fun L r => executeBet get_bet_count_for_ticker r.1 r.2.1 r.2.2.1 r.2.2.2 L)
          ([] : List Bet)) t ≤ 2) :=
  ⟨recordedBetCount_le_ticker_count, fun _ => by simp [recordedBetCount],
   (exposure_cap_invariant get_bet_count_for_ticker recordedBetCount_le_ticker_count _ []
      (fun _ => by simp [recordedBetCount])).2⟩

/-- C10: the execution-time exposure recheck consults only the per-ticker
ledger count: two ledgers agreeing on the decision's ticker count produce
identical execute_bet control flow whatever their series exposure, while
the per-series cap of 4 is enforced solely by the advisory pre-filter
filter_by_position_limits. -/
theorem exposure_recheck_ignores_series
    (L1 L2 : List Bet) (dec : Decision)
    (h : get_bet_count_for_ticker L1 dec.ticker = get_bet_count_for_ticker L2 dec.ticker) :
    executeBetResult (get_bet_count_for_ticker L1) (some dec)
      = executeBetResult (get_bet_count_for_ticker L2) (some dec) ∧
    (∀ (countT countS : String → Nat) (ms : List Market) (m : Market),
        m ∈ filter_by_position_limits countT countS ms →
        countS (seriesOf m.ticker) < MAX_EXPOSURE_PER_SERIES) := by
  constructor
  · simp only [executeBetResult, h]
  · intro countT countS ms m hm
    simp only [filter_by_position_limits, List.mem_filter, Bool.and_eq_true,
      decide_eq_true_eq] at hm
    exact hm.2.2

/-- Witness: a ledger with four recorded bets on the KXRT series (series
count 4, at the per-series cap) still drives execute_bet to order
placement for a fresh ticker of that series, exactly as the empty ledger
does. -/
theorem exposure_recheck_ignores_series_witness :
    get_bet_count_for_series kxrtLedgerEx "KXRT" = 4 ∧
    executeBetResult (get_bet_count_for_ticker ([] : List Bet)) (some decKxrtEx)
      = executeBetResult (get_bet_count_for_ticker kxrtLedgerEx) (some decKxrtEx) ∧
    executeBetResult (get_bet_count_for_ticker kxrtLedgerEx) (some decKxrtEx)
      = ExecResult.orderAttempt 13 :=
  ⟨by decide,
   (exposure_recheck_ignores_series [] kxrtLedgerEx decKxrtEx (by decide)).1,
   by
     have hcnt : get_bet_count_for_ticker kxrtLedgerEx "KXRT-B" = 0 := by decide
     have h13 : Int.floor ((4 : ℚ) / (30 / 100)) = 13 := by norm_num
     norm_num [executeBetResult, decKxrtEx, hcnt, h13]⟩

theorem sweepBet_open_lookup (b : Bet) (g : String → Option MarketInfo)
    (mi : MarketInfo) (hopen : b.status = "open") (hg : g b.ticker = some mi) :
    sweepBet g b
      = match newBetStatus mi.status mi.result (pyUpper b.side) with
        | some s => { b with status := s }
        | none => b := by
  unfold sweepBet
  rw [hopen, if_pos rfl, hg]

/-- C3: on an open bet whose market reports a settled status, the sweep
applies the (result, side) decision table: result yes or no settles won or
lost by side, the void results settle void, an empty result on a finalized
market settles settled, any other result leaves the bet open, and a
non-settled market status leaves the bet open. -/
theorem reconciler_transition_table
    (b : Bet) (g : String → Option MarketInfo) (st r : String)
    (hopen : b.status = "open") (hg : g b.ticker = some ⟨st, r⟩)
    (hst : st = "closed" ∨ st = "settled" ∨ st = "finalized") :
    (resultClean r = "yes" →
        sweepBet g b
          = { b with status := if pyUpper b.side = "YES" then "won" else "lost" }) ∧
    (resultClean r = "no" →
        sweepBet g b
          = { b with status := if pyUpper b.side = "NO" then "won" else "lost" }) ∧
    (resultClean r = "void" ∨ resultClean r = "canceled" ∨ resultClean r = "cancelled" ∨
        resultClean r = "refunded" →
        sweepBet g b = { b with status := "void" }) ∧
    (resultClean r = "" → st = "finalized" →
        sweepBet g b = { b with status := "settled" }) ∧
    (resultClean r ≠ "yes" → resultClean r ≠ "no" → resultClean r ≠ "void" →
        resultClean r ≠ "canceled" → resultClean r ≠ "cancelled" →
        resultClean r ≠ "refunded" → ¬(resultClean r = "" ∧ st = "finalized") →
        sweepBet g b = b) ∧
    (∀ (g2 : String → Option MarketInfo) (st2 r2 : String),
        g2 b.ticker = some ⟨st2, r2⟩ →
        ¬(st2 = "closed" ∨ st2 = "settled" ∨ st2 = "finalized") →
        sweepBet g2 b = b) := by
  rw [sweepBet_open_lookup b g ⟨st, r⟩ hopen hg]
  refine ⟨fun h1 => ?_, fun h1 => ?_, fun h1 => ?_, fun h1 h2 => ?_,
          fun n1 n2 n3 n4 n5 n6 n7 => ?_, fun g2 st2 r2 hg2 hn => ?_⟩
  · simp [newBetStatus, hst, h1]
  · simp [newBetStatus, hst, h1]
  · rcases h1 with h1 | h1 | h1 | h1 <;> simp [newBetStatus, hst, h1]
  · simp [newBetStatus, hst, h1, h2]
  · simp [newBetStatus, hst, n1, n2, n3, n4, n5, n6, n7]
  · rw [sweepBet_open_lookup b g2 ⟨st2, r2⟩ hopen hg2]
    simp [newBetStatus, hn]

/-- Witness for reconciler_transition_table: a side-yes open bet on a
finalized market with result yes transitions to won. -/
theorem reconciler_transition_table_witness :
    resultClean "yes" = "yes" ∧
    sweepBet (fun _ => some ⟨"finalized", "yes"⟩) betOpenEx
      = { betOpenEx with
          status := if pyUpper betOpenEx.side = "YES" then "won" else "lost" } :=
  ⟨by decide,
   (reconciler_transition_table betOpenEx (fun _ => some ⟨"finalized", "yes"⟩)
      "finalized" "yes" rfl rfl (Or.inr (Or.inr rfl))).1 (by decide)⟩

theorem sweepBet_not_open (g : String → Option MarketInfo) (b : Bet)
    (h : b.status ≠ "open") : sweepBet g b = b := by
  simp [sweepBet, h]

theorem sweepBet_foldl_fixed (b : Bet) (h : b.status ≠ "open") :
    ∀ gs : List (String → Option MarketInfo),
      gs.foldl (fun x g2 => sweepBet g2 x) b = b := by
  intro gs
  induction gs with
  | nil => rfl
  | cons g gs ih =>
    simp only [List.foldl_cons, sweepBet_not_open g b h]
    exact ih

/-- C4: the sweep selects only bets whose status is exactly open: a
dry_run bet is outside the selection and untouched by any number of
sweeps, the queried tickers all come from open bets, and the terminal
statuses won, lost, void and settled are absorbing under arbitrarily many
further sweeps. -/
theorem reconciler_scope (bets : List Bet) (b : Bet) :
    (b.status = "dry_run" →
        (∀ gs : List (String → Option MarketInfo),
            gs.foldl (fun x g2 => sweepBet g2 x) b = b) ∧
        b ∉ bets.filter (fun x => x.status == "open")) ∧
    (∀ t, t ∈ sweepQueries bets →
        ∃ b2, b2 ∈ bets ∧ b2.status = "open" ∧ b2.ticker = t) ∧
    (b.status = "won" ∨ b.status = "lost" ∨ b.status = "void" ∨ b.status = "settled" →
        ∀ gs : List (String → Option MarketInfo),
            gs.foldl (fun x g2 => sweepBet g2 x) b = b) := by
  refine ⟨fun hd => ⟨sweepBet_foldl_fixed b (by simp [hd]), ?_⟩,
          fun t ht => ?_, fun hterm => ?_⟩
  · simp [List.mem_filter, hd]
  · simp only [sweepQueries, List.mem_map, List.mem_filter] at ht
    obtain ⟨b2, ⟨hmem, hstt⟩, hticker⟩ := ht
    exact ⟨b2, hmem, by simpa using hstt, hticker⟩
  · apply sweepBet_foldl_fixed
    rcases hterm with h | h | h | h <;> simp [h]

/-- Witness for reconciler_scope: a dry_run bet and a won bet survive any
sweeps unchanged, and the dry_run bet is outside the open selection. -/
theorem reconciler_scope_witness :
    (∀ gs : List (String → Option MarketInfo),
        gs.foldl (fun x g2 => sweepBet g2 x) betDryEx = betDryEx) ∧
    betDryEx ∉ [betDryEx, betOpenEx].filter (fun x => x.status == "open") ∧
    (∀ gs : List (String → Option MarketInfo),
        gs.foldl (fun x g2 => sweepBet g2 x) betWonEx = betWonEx) :=
  ⟨((reconciler_scope [betDryEx, betOpenEx] betDryEx).1 rfl).1,
   ((reconciler_scope [betDryEx, betOpenEx] betDryEx).1 rfl).2,
   (reconciler_scope [betDryEx, betOpenEx] betWonEx).2.2 (Or.inl rfl)⟩

/-- C6: for a market passing the prefix, volume and price-band gates of
filter_culture_markets, the spread gate drops it exactly when
yesAsk + noAsk exceeds the ceiling; with asks 0.55 and 0.52 (spread 1.07)
the market is dropped under ceiling 1.05 and kept under ceiling 1.08. -/
theorem spread_gate_exact (c : ℚ) (m : Market) (y n : ℚ)
    (hpre : cultureTickerOk m.ticker = true) (hvol : MIN_VOLUME < m.volume)
    (hasks : marketAsks m = some (y, n))
    (hband : MIN_YES_PRICE ≤ y ∧ y ≤ MAX_YES_PRICE) :
    (cultureKeep MIN_VOLUME c m = false ↔ c < y + n) ∧
    cultureKeep MIN_VOLUME (105 / 100) mSpreadEx = false ∧
    cultureKeep MIN_VOLUME (108 / 100) mSpreadEx = true := by
  have hok : cultureTickerOk "KXRT-1" = true := by decide
  refine ⟨?_, ?_, ?_⟩
  · simp only [cultureKeep, hpre, if_true, not_le.mpr hvol, if_false, hasks,
      hband.1, hband.2, and_self, if_true]
    split_ifs with h
    · simp [h]
    · simp [h]
  · norm_num [cultureKeep, mSpreadEx, marketAsks, pyFloat?, hok,
      MIN_VOLUME, MIN_YES_PRICE, MAX_YES_PRICE]
  · norm_num [cultureKeep, mSpreadEx, marketAsks, pyFloat?, hok,
      MIN_VOLUME, MIN_YES_PRICE, MAX_YES_PRICE]

/-- Witness for spread_gate_exact at the 0.55/0.52 market and the 1.05
ceiling. -/
theorem spread_gate_exact_witness :
    marketAsks mSpreadEx = some (55 / 100, 52 / 100) ∧
    (cultureKeep MIN_VOLUME (105 / 100) mSpreadEx = false ↔
        (105 / 100 : ℚ) < 55 / 100 + 52 / 100) :=
  ⟨rfl,
   (spread_gate_exact (105 / 100) mSpreadEx (55 / 100) (52 / 100) (by decide)
      (by decide) rfl
      ⟨by norm_num [MIN_YES_PRICE], by norm_num [MAX_YES_PRICE]⟩).1⟩

/-- C7 counterexample: the claim reads the volume floor as keeping any
market whose volume is not below the threshold, but a market with volume
exactly MIN_VOLUME = 50, passing every other gate, is dropped by
filter_culture_markets. -/
theorem volume_floor_counterexample :
    mVolFloorEx.volume = MIN_VOLUME ∧
    cultureTickerOk mVolFloorEx.ticker = true ∧
    marketAsks mVolFloorEx = some (1 / 2, 1 / 2) ∧
    (MIN_YES_PRICE ≤ (1 / 2 : ℚ) ∧ (1 / 2 : ℚ) ≤ MAX_YES_PRICE) ∧
    (1 / 2 : ℚ) + 1 / 2 ≤ MAX_SPREAD ∧
    filter_culture_markets [mVolFloorEx] = [] := by
  have hkeep : cultureKeep MIN_VOLUME MAX_SPREAD mVolFloorEx = false := by
    norm_num [cultureKeep, mVolFloorEx, MIN_VOLUME]
  refine ⟨by decide, by decide, rfl, ⟨by norm_num [MIN_YES_PRICE], by norm_num [MAX_YES_PRICE]⟩,
    by norm_num [MAX_SPREAD], ?_⟩
  simp [filter_culture_markets, hkeep]

/-- C7 amended: a market passing the other gates of
filter_culture_markets survives the volume floor iff its volume strictly
exceeds the threshold; a volume equal to the threshold is dropped. -/
theorem volume_floor_strict (m : Market) (y n : ℚ)
    (hpre : cultureTickerOk m.ticker = true)
    (hasks : marketAsks m = some (y, n))
    (hband : MIN_YES_PRICE ≤ y ∧ y ≤ MAX_YES_PRICE)
    (hspread : y + n ≤ MAX_SPREAD) :
    cultureKeep MIN_VOLUME MAX_SPREAD m = true ↔ MIN_VOLUME < m.volume := by
  simp only [cultureKeep, hpre, if_true, hasks, hband.1, hband.2, and_self,
    not_lt.mpr hspread, if_false]
  split_ifs with h
  · simp only [Bool.false_eq_true, false_iff, not_lt]
    exact h
  · simp only [true_iff]
    omega

/-- Witness for volume_floor_strict at a volume just above the floor. -/
theorem volume_floor_strict_witness :
    (cultureKeep MIN_VOLUME MAX_SPREAD mVolAboveEx = true ↔
        MIN_VOLUME < mVolAboveEx.volume) :=
  volume_floor_strict mVolAboveEx (1 / 2) (1 / 2) (by decide) rfl
    ⟨by norm_num [MIN_YES_PRICE], by norm_num [MAX_YES_PRICE]⟩
    (by norm_num [MAX_SPREAD])

/-- C8 counterexample: the claim says a market with missing ask-price data
is rejected, but a market whose no-ask field is absent defaults to 0,
passes the yes-price band and the spread test, and is kept by
filter_culture_markets. -/
theorem missing_ask_counterexample :
    mMissingNoAskEx.noAskDollars = none ∧
    filter_culture_markets [mMissingNoAskEx] = [mMissingNoAskEx] := by
  have hok : cultureTickerOk "KXRT-1" = true := by decide
  have hkeep : cultureKeep MIN_VOLUME MAX_SPREAD mMissingNoAskEx = true := by
    norm_num [cultureKeep, mMissingNoAskEx, marketAsks, pyFloat?, hok,
      MIN_VOLUME, MIN_YES_PRICE, MAX_YES_PRICE, MAX_SPREAD]
  exact ⟨rfl, by simp [filter_culture_markets, hkeep]⟩

/-- C8 amended: a market whose yes-ask or no-ask field holds a value on
which float() fails (a non-numeric string or None) is dropped by
filter_culture_markets, as is one with no yes-ask field at all (the
0 default falls outside the price band); the offending market is simply
removed and filtering continues over the surrounding markets.  A missing
no-ask field, by contrast, defaults to 0 and does not by itself cause
rejection. -/
theorem bad_price_dropped (m : Market) (ms1 ms2 : List Market)
    (hbad : (∃ v, m.yesAskDollars = some v ∧ pyFloat? v = none) ∨
            (∃ v, m.noAskDollars = some v ∧ pyFloat? v = none) ∨
            m.yesAskDollars = none) :
    cultureKeep MIN_VOLUME MAX_SPREAD m = false ∧
    filter_culture_markets (ms1 ++ m :: ms2)
      = filter_culture_markets ms1 ++ filter_culture_markets ms2 := by
  have hkeep : cultureKeep MIN_VOLUME MAX_SPREAD m = false := by
    rcases hbad with ⟨v, hv, hfv⟩ | ⟨v, hv, hfv⟩ | hv
    · have hma : marketAsks m = none := by simp [marketAsks, hv, hfv]
      simp [cultureKeep, hma]
    · have hma : marketAsks m = none := by
        simp only [marketAsks, hv, Option.getD_some, hfv]
        cases pyFloat? (m.yesAskDollars.getD (.num 0)) <;> rfl
      simp [cultureKeep, hma]
    · cases hn : pyFloat? (m.noAskDollars.getD (.num 0)) with
      | none =>
        have hma : marketAsks m = none := by
          simp only [marketAsks]
          rw [hv, hn]
          rfl
        simp [cultureKeep, hma]
      | some nv =>
        have hma : marketAsks m = some (0, nv) := by
          simp only [marketAsks]
          rw [hv, hn]
          rfl
        have hband : ¬(MIN_YES_PRICE ≤ (0 : ℚ) ∧ (0 : ℚ) ≤ MAX_YES_PRICE) := by
          norm_num [MIN_YES_PRICE]
        simp [cultureKeep, hma, hband]
  refine ⟨hkeep, ?_⟩
  simp [filter_culture_markets, List.filter_append, hkeep]

/-- Witness for bad_price_dropped at a market with the yes-ask string
value N/A, dropped without disturbing its neighbours. -/
theorem bad_price_dropped_witness :
    pyFloat? (.str "N/A") = none ∧
    cultureKeep MIN_VOLUME MAX_SPREAD mBadYesAskEx = false ∧
    filter_culture_markets ([] ++ mBadYesAskEx :: [])
      = filter_culture_markets [] ++ filter_culture_markets [] :=
  ⟨by decide,
   (bad_price_dropped mBadYesAskEx [] []
      (Or.inl ⟨.str "N/A", rfl, by decide⟩)).1,
   (bad_price_dropped mBadYesAskEx [] []
      (Or.inl ⟨.str "N/A", rfl, by decide⟩)).2⟩

theorem kxrtMarket_keep (t : String) (h : cultureTickerOk t = true) :
    cultureKeep MIN_VOLUME MAX_SPREAD (kxrtMarket t) = true := by
  norm_num [cultureKeep, kxrtMarket, marketAsks, pyFloat?, h, MIN_VOLUME,
    MIN_YES_PRICE, MAX_YES_PRICE, MAX_SPREAD]

theorem kxrtMarket_enrich (t : String) (hd : '-' ∈ (t : String).data)
    (hs : seriesOf t = "KXRT") :
    enrichMarket kxrtSeriesList (fun _ => none) (kxrtMarket t)
      = { kxrtMarket t with settlementSources := ["Rotten Tomatoes"] } := by
  simp [enrichMarket, kxrtMarket, kxrtSeriesList, hd, hs]

/-- C5 counterexample: with an empty ledger, four equally valid markets of
the one KXRT series all reach the final candidate list of
fetch_filtered_markets, so the series-prefix KXRT appears 4 times there,
exceeding both observed diversification caps K = 2 and K = 3. -/
theorem diversification_cap_counterexample :
    ((fetch_filtered_markets kxrtSeriesList
        (fun t => if t == "KXRT" then fourKxrtMarkets else [])
        (fun _ => none) (fun _ => 0) (fun _ => 0) 50).filter
      (fun m => seriesOf m.ticker == "KXRT")).length = 4 ∧ 3 < 4 := by
  refine ⟨?_, by norm_num⟩
  have hk1 : cultureKeep MIN_VOLUME MAX_SPREAD (kxrtMarket "KXRT-1") = true :=
    kxrtMarket_keep _ (by decide)
  have hk2 : cultureKeep MIN_VOLUME MAX_SPREAD (kxrtMarket "KXRT-2") = true :=
    kxrtMarket_keep _ (by decide)
  have hk3 : cultureKeep MIN_VOLUME MAX_SPREAD (kxrtMarket "KXRT-3") = true :=
    kxrtMarket_keep _ (by decide)
  have hk4 : cultureKeep MIN_VOLUME MAX_SPREAD (kxrtMarket "KXRT-4") = true :=
    kxrtMarket_keep _ (by decide)
  have he1 := kxrtMarket_enrich "KXRT-1" (by decide) (by decide)
  have he2 := kxrtMarket_enrich "KXRT-2" (by decide) (by decide)
  have he3 := kxrtMarket_enrich "KXRT-3" (by decide) (by decide)
  have he4 := kxrtMarket_enrich "KXRT-4" (by decide) (by decide)
  have hs1 : seriesOf "KXRT-1" = "KXRT" := by decide
  have hs2 : seriesOf "KXRT-2" = "KXRT" := by decide
  have hs3 : seriesOf "KXRT-3" = "KXRT" := by decide
  have hs4 : seriesOf "KXRT-4" = "KXRT" := by decide
  have hok : cultureTickerOk "KXRT" = true := by decide
  have hfilter : List.filter (cultureKeep MIN_VOLUME MAX_SPREAD)
      [kxrtMarket "KXRT-1", kxrtMarket "KXRT-2", kxrtMarket "KXRT-3", kxrtMarket "KXRT-4"]
      = [kxrtMarket "KXRT-1", kxrtMarket "KXRT-2", kxrtMarket "KXRT-3",
         kxrtMarket "KXRT-4"] := by
    simp [hk1, hk2, hk3, hk4]
  have htake : List.take 50
      [kxrtMarket "KXRT-1", kxrtMarket "KXRT-2", kxrtMarket "KXRT-3", kxrtMarket "KXRT-4"]
      = [kxrtMarket "KXRT-1", kxrtMarket "KXRT-2", kxrtMarket "KXRT-3",
         kxrtMarket "KXRT-4"] :=
    List.take_of_length_le (by simp)
  have hpos : filter_by_position_limits (fun _ => 0) (fun _ => 0)
      [kxrtMarket "KXRT-1", kxrtMarket "KXRT-2", kxrtMarket "KXRT-3", kxrtMarket "KXRT-4"]
      = [kxrtMarket "KXRT-1", kxrtMarket "KXRT-2", kxrtMarket "KXRT-3",
         kxrtMarket "KXRT-4"] := by
    simp [filter_by_position_limits, MAX_BETS_PER_TICKER, MAX_EXPOSURE_PER_SERIES]
  simp only [fetch_filtered_markets, kxrtSeriesList, fourKxrtMarkets]
  simp only [kxrtMarket, kxrtSeriesList] at hk1 hk2 hk3 hk4 he1 he2 he3 he4 hfilter htake hpos ⊢
  norm_num [filter_culture_markets, hfilter, htake, hpos, hok,
    he1, he2, he3, he4, hs1, hs2, hs3, hs4, MAX_MARKETS_FOR_LLM]

/-- C5 amended: fetch_filtered_markets imposes no per-series
diversification cap K; the only bound on how often one series-prefix can
appear in the final candidate list is the overall candidate cap
MAX_MARKETS_FOR_LLM = 15 (besides the ledger-based series exposure
pre-filter on previously recorded bets). -/
theorem series_occurrences_bounded_only_by_cap
    (allSeries : List Series) (getAllMarkets : String → List Market)
    (getSeries : String → Option Series) (countT countS : String → Nat)
    (limit : Nat) (p : String) :
    ((fetch_filtered_markets allSeries getAllMarkets getSeries countT countS limit).filter
        (fun m => seriesOf m.ticker == p)).length ≤ MAX_MARKETS_FOR_LLM := by
  have hle := List.length_filter_le (fun m => seriesOf m.ticker == p)
    (fetch_filtered_markets allSeries getAllMarkets getSeries countT countS limit)
  have hlen : (fetch_filtered_markets allSeries getAllMarkets getSeries
      countT countS limit).length ≤ MAX_MARKETS_FOR_LLM := by
    simp only [fetch_filtered_markets]
    split
    · simp
    · simp only [List.length_map]
      split
      · rename_i h
        simp [List.length_take]
      · rename_i h
        exact Nat.le_of_not_lt h
  omega

theorem mem_stripChars {c : Char} {l : List Char} (h : c ∈ stripChars l) : c ∈ l := by
  unfold stripChars at h
  rw [List.mem_reverse] at h
  have h2 : c ∈ (l.dropWhile isPySpace).reverse := (List.dropWhile_sublist _).subset h
  rw [List.mem_reverse] at h2
  exact (List.dropWhile_sublist _).subset h2

theorem mem_extractJsonFence {l r : List Char} (h : extractJsonFence l = some r)
    {c : Char} (hc : c ∈ r) : c ∈ l := by
  induction l with
  | nil => simp [extractJsonFence] at h
  | cons a cs ih =>
    simp only [extractJsonFence] at h
    split at h
    · split at h
      · rename_i heq
        cases h
        have h1 : c ∈ ((a :: cs).drop 7).dropWhile isPySpace :=
          (List.take_sublist _ _).subset hc
        have h2 : c ∈ (a :: cs).drop 7 := (List.dropWhile_sublist _).subset h1
        exact (List.drop_sublist _ _).subset h2
      · exact List.mem_cons_of_mem a (ih h)
    · exact List.mem_cons_of_mem a (ih h)

theorem mem_extractObjFence {l r : List Char} (h : extractObjFence l = some r)
    {c : Char} (hc : c ∈ r) : c ∈ l := by
  induction l with
  | nil => simp [extractObjFence] at h
  | cons a cs ih =>
    simp only [extractObjFence] at h
    split at h
    · split at h
      · split at h
        · cases h
          have h1 : c ∈ ((a :: cs).drop 3).dropWhile isPySpace :=
            (List.take_sublist _ _).subset hc
          have h2 : c ∈ (a :: cs).drop 3 := (List.dropWhile_sublist _).subset h1
          exact (List.drop_sublist _ _).subset h2
        · exact List.mem_cons_of_mem a (ih h)
      · exact List.mem_cons_of_mem a (ih h)
    · exact List.mem_cons_of_mem a (ih h)

theorem mem_extractBraces {l : List Char} {c : Char} (hc : c ∈ extractBraces l) :
    c ∈ l := by
  unfold extractBraces at hc
  split at hc
  · split at hc
    · exact (List.drop_sublist _ _).subset ((List.take_sublist _ _).subset hc)
    · exact hc
  · exact hc

theorem mem_extractRegion {l : List Char} {c : Char} (hc : c ∈ extractRegion l) :
    c ∈ l := by
  unfold extractRegion at hc
  split at hc
  · rename_i r h
    exact mem_extractJsonFence h hc
  · split at hc
    · rename_i r h
      exact mem_extractObjFence h hc
    · exact mem_extractBraces hc

theorem mem_stripTrailingComma {l : List Char} {c : Char}
    (hc : c ∈ stripTrailingComma l) : c ∈ l := by
  unfold stripTrailingComma at hc
  split at hc
  · rename_i c0 rest hrev
    split at hc
    · split at hc
      · rename_i rest2 hdrop
        rw [List.mem_reverse, List.cons_append, List.mem_cons] at hc
        have hl : l = (c0 :: rest).reverse := by rw [← hrev, List.reverse_reverse]
        rw [hl, List.mem_reverse, List.mem_cons]
        rcases hc with hc | hc
        · exact Or.inl hc
        · rw [List.mem_append] at hc
          rcases hc with hc | hc
          · exact Or.inr ((List.takeWhile_sublist _).subset hc)
          · have hmem : c ∈ rest.dropWhile isPySpace := by
              rw [hdrop]
              exact List.mem_cons_of_mem _ hc
            exact Or.inr ((List.dropWhile_sublist _).subset hmem)
      · exact hc
    · exact hc
  · exact hc

theorem extractText_no_lbrace {s : String} (h : lbrace ∉ s.data) :
    lbrace ∉ (extractText s).data := fun hmem =>
  h (mem_stripChars (mem_extractRegion (mem_stripChars (mem_stripTrailingComma hmem))))

/-- C9: parse_llm_decision is a total function (the blanket exception
handler turns every failure into null): the empty input yields null, any
input whose extracted and comma-repaired text json.loads rejects yields
null, and an input containing no curly bracket at all yields null, since
no extraction step can then produce the text of a JSON object. -/
theorem parser_null_on_failure
    (loads : String → Option Jv) (s : String)
    (hobj : ∀ t fields, loads t = some (Jv.obj fields) → lbrace ∈ t.data) :
    parse_llm_decision loads "" = none ∧
    (loads (extractText s) = none → parse_llm_decision loads s = none) ∧
    (lbrace ∉ s.data → rbrace ∉ s.data → parse_llm_decision loads s = none) := by
  refine ⟨by simp [parse_llm_decision], fun hl => ?_, fun hlb h2 => ?_⟩
  · by_cases hs : s = ""
    · simp [parse_llm_decision, hs]
    · simp [parse_llm_decision, hs, hl]
  · by_cases hs : s = ""
    · simp [parse_llm_decision, hs]
    · have hnb : lbrace ∉ (extractText s).data := extractText_no_lbrace hlb
      cases hload : loads (extractText s) with
      | none => simp [parse_llm_decision, hs, hload]
      | some v =>
        cases v with
        | obj fields => exact absurd (hobj _ fields hload) hnb
        | null => simp [parse_llm_decision, hs, hload]
        | bool b => simp [parse_llm_decision, hs, hload]
        | num q => simp [parse_llm_decision, hs, hload]
        | str t => simp [parse_llm_decision, hs, hload]
        | arr a => simp [parse_llm_decision, hs, hload]

/-- Witness for parser_null_on_failure: the empty output and a brace-free
output both parse to null under a loads oracle that rejects everything. -/
theorem parser_null_on_failure_witness :
    parse_llm_decision (fun _ => none) "" = none ∧
    parse_llm_decision (fun _ => none) "no json output at all" = none :=
  ⟨(parser_null_on_failure (fun _ => none) "x" (fun _ _ h => nomatch h)).1,
   (parser_null_on_failure (fun _ => none) "no json output at all"
      (fun _ _ h => nomatch h)).2.2 (by decide) (by decide)⟩

end Theorems

end KalshiBot
